import Mathlib

/-!
Verification development for the cooklatex recipe transpiler
(`src/latex.rs`, `src/recipe.rs`, `src/main.rs`).

The Rust sources are shallowly embedded below.  Machine integers from the
source (`u64` metadata minutes, `usize` table indices) are modelled as `Nat`:
the only arithmetic performed on them is division and remainder by 60 and
comparisons, which cannot overflow.  Numeric quantity values (cooklang
`Value`) are modelled as `ℚ`.  Fallible Rust code returning
`anyhow::Result` is modelled with an explicit result type that also tracks
panics (`expect` / `unreachable!`), since the distinction between an
`Err` return and a panic is observable in the pipeline's error isolation.
-/

namespace CookLatex

/-! ## Rust `str::replace` semantics

`String::replace(pat, repl)` replaces every non-overlapping occurrence of
`pat`, scanning left to right.  It is embedded with an explicit structural
fuel so that the definition is computable by the kernel; `fuel = s.length`
always suffices because each step consumes at least one character. -/

/-- Left-to-right, non-overlapping replacement of `pat` by `repl` in `s`,
with structural fuel (Rust `str::replace` on char lists). -/
def replaceAllAux (pat repl : List Char) : Nat → List Char → List Char
  | _, [] => []
  | 0, s => s
  | fuel + 1, c :: cs =>
    if pat.isPrefixOf (c :: cs) then
      repl ++ replaceAllAux pat repl fuel (List.drop pat.length (c :: cs))
    else
      c :: replaceAllAux pat repl fuel cs

/-- Rust `s.replace(pat, repl)` for strings. -/
def rustReplace (s pat repl : String) : String :=
  ⟨replaceAllAux pat.data repl.data s.data.length s.data⟩

/-- Whether `pat` occurs as a contiguous sublist of `s` (used to state
presence or absence of the placeholder token). -/
def containsSub (pat : List Char) : List Char → Bool
  | [] => pat.isPrefixOf []
  | c :: cs => pat.isPrefixOf (c :: cs) || containsSub pat cs

/-- String-level wrapper of `containsSub`. -/
def containsSubStr (pat s : String) : Bool :=
  containsSub pat.data s.data

/-! ## Result type

`ok` models `Ok`, `error` models an `anyhow::Err` (caught at the per-file
boundary), `panicked` models a Rust panic (`expect`, `unreachable!`), which
unwinds past every `match` on `Result` and aborts the process. -/

/-- Outcome of fallible or panicking Rust code. -/
inductive RenderResult (α : Type) where
  | ok (val : α)
  | error (msg : String)
  | panicked (msg : String)
deriving DecidableEq

/-- Sequencing that propagates both errors and panics (Rust `?` plus
panic unwinding). -/
def RenderResult.bind {α β : Type} : RenderResult α → (α → RenderResult β) → RenderResult β
  | .ok a, f => f a
  | .error m, _ => .error m
  | .panicked m, _ => .panicked m

/-! ## Data model (cooklang `Recipe` as consumed by `recipe.rs`) -/

/-- A quantity: numeric value plus optional unit (cooklang `Quantity`). -/
structure Quantity where
  value : ℚ
  unit : Option String
deriving DecidableEq

/-- Ingredient modifier flags consulted by `ingredient_list`. -/
structure Modifiers where
  is_optional : Bool
  should_be_listed : Bool
deriving DecidableEq

/-- An entry of the recipe's flat ingredient table.  `display_name` models
cooklang's `Ingredient::display_name()` (alias or name), used only when
rendering step text. -/
structure Ingredient where
  name : String
  display_name : String
  quantity : Option Quantity
  modifiers : Modifiers
deriving DecidableEq

/-- An entry of the cookware table. -/
structure Cookware where
  name : String
deriving DecidableEq

/-- An entry of the timer table.  Having neither name nor quantity is the
invariant violation `format_timer` treats as unreachable. -/
structure Timer where
  name : Option String
  quantity : Option Quantity
deriving DecidableEq

/-- A step item (cooklang `Item`): positional references into the recipe's
flat tables, or literal text. -/
inductive Item where
  | Text (value : String)
  | Ingredient (index : Nat)
  | Cookware (index : Nat)
  | Timer (index : Nat)
  | InlineQuantity (index : Nat)
deriving DecidableEq

/-- A step: an ordered sequence of items. -/
structure Step where
  items : List Item
deriving DecidableEq

/-- Section content: a step or free text (cooklang `Content`). -/
inductive Content where
  | Step (step : Step)
  | Text (text : String)
deriving DecidableEq

/-- A recipe section: optional name plus ordered content. -/
structure Section where
  name : Option String
  content : List Content
deriving DecidableEq

/-- The metadata keys `recipe.rs` reads: `title()`, `description()`,
`servings()`, and the `u64` values of `StdKey::PrepTime` / `StdKey::CookTime`
(via `get_u64_meta`).  The full cooklang metadata mapping is external; only
these accessors are consumed by the source. -/
structure Metadata where
  title : Option String
  description : Option String
  servings : Option Nat
  prep_time : Option Nat
  cook_time : Option Nat
deriving DecidableEq

/-- The parsed recipe: metadata, sections, and the four flat tables. -/
structure Recipe where
  metadata : Metadata
  sections : List Section
  ingredients : List Ingredient
  cookware : List Cookware
  timers : List Timer
  inline_quantities : List Quantity
deriving DecidableEq

/-- Table lookup `recipe.ingredients[index]`.  The parser guarantees step
item indices are in range; the default is never reached on parser output. -/
def ingAt (recipe : Recipe) (i : Nat) : Ingredient :=
  recipe.ingredients.getD i ⟨"", "", none, ⟨false, false⟩⟩

/-! ## Document builder (`latex.rs`) -/

/-- A command argument: required arguments render as braces, optional ones
as brackets (`latex.rs` `Arg`). -/
structure Arg where
  value : String
  optional : Bool
deriving DecidableEq

/-- `Arg::required` -/
def Arg.required (value : String) : Arg := ⟨value, false⟩

/-- The builder's accumulated lines (`LatexBuilder::content`). -/
abbrev LatexBuilder := List String

/-- Rendering of one argument inside `add_command`. -/
def formatArg (a : Arg) : String :=
  if a.optional then "[" ++ a.value ++ "]" else "\x7b" ++ a.value ++ "\x7d"

/-- `LatexBuilder::add_command`: appends one line `\command{a}[b]...`. -/
def add_command (b : LatexBuilder) (command : String) (args : List Arg) : LatexBuilder :=
  b ++ ["\\" ++ command ++ String.join (args.map formatArg)]

/-- `LatexBuilder::add_simple_command`: one required argument. -/
def add_simple_command (b : LatexBuilder) (command : String) (arg : String) : LatexBuilder :=
  add_command b command [Arg.required arg]

/-- `LatexBuilder::add_builder`: splice another builder's lines. -/
def add_builder (b other : LatexBuilder) : LatexBuilder := b ++ other

/-- `LatexBuilder::add_env`: begin line, body lines, end line. -/
def add_env (b : LatexBuilder) (env : String) (content : LatexBuilder) : LatexBuilder :=
  add_simple_command (add_builder (add_simple_command b "begin" env) content) "end" env

/-- `LatexBuilder::build`: join all lines with newlines. -/
def LatexBuilder.build (b : LatexBuilder) : String := String.intercalate "\n" b

/-! ## Formatting and escaping (`recipe.rs`) -/

/-- Textual form of a rational quantity value; integral values print as the
plain integer, matching the display of whole-number cooklang values. -/
def valueToString (v : ℚ) : String :=
  if v.den = 1 then toString v.num else toString v.num ++ "/" ++ toString v.den

/-- `format_quantity`: `"<value> <unit>"` or `"<value>"`. -/
def format_quantity (qty : Quantity) : String :=
  match qty.unit with
  | some unit => valueToString qty.value ++ " " ++ unit
  | none => valueToString qty.value

/-- `sanitize_latex`: four chained `String::replace` calls escaping
`&`, `%`, `$`, `#`. -/
def sanitize_latex (input : String) : String :=
  rustReplace (rustReplace (rustReplace (rustReplace input "&" "\\&") "%" "\\%") "$" "\\$") "#" "\\#"

/-- `RecipeTime::format_time` on whole minutes. -/
def format_time (minutes : Nat) : String :=
  if minutes < 60 then
    toString minutes ++ " mins"
  else
    let hours := minutes / 60
    let mins := minutes % 60
    if mins = 0 then
      toString hours ++ " hrs"
    else
      toString hours ++ " hrs " ++ toString mins ++ " mins"

/-- `RecipeTime` as read from metadata. -/
structure RecipeTime where
  prep_time : Option Nat
  cook_time : Option Nat

/-- `RecipeTime::from_metadata`. -/
def RecipeTime.from_metadata (m : Metadata) : RecipeTime :=
  ⟨m.prep_time, m.cook_time⟩

/-- `format_timer`: the `(None, None)` branch is `unreachable!`, a panic. -/
def format_timer (quantity : Option Quantity) (name : Option String) : RenderResult String :=
  match quantity, name with
  | some qty, some name => .ok (format_quantity qty ++ " (" ++ name ++ ")")
  | some qty, none => .ok (format_quantity qty)
  | none, some name => .ok name
  | none, none => .panicked "Timer must have either quantity or name"

/-! ## Grouped quantities

Modelled from the spec: the conversion collaborator's grouped quantity
(cooklang `GroupedQuantity`, external to this repository).  Per §6,
`add(quantity, converter)` merges a quantity into a running total,
"returning either a successfully merged total or keeping the new quantity
as a separate bucket when units are incompatible".  With no units file the
converter is empty, so two quantities are compatible exactly when their
units coincide. -/

/-- A grouped quantity: ordered buckets of pairwise-incompatible totals. -/
abbrev GroupedQuantity := List Quantity

/-- Modelled from the spec: `GroupedQuantity::add` via the conversion
oracle — merge into the first bucket with a compatible (equal) unit, else
keep the quantity as a new bucket. -/
def GroupedQuantity.add : GroupedQuantity → Quantity → GroupedQuantity
  | [], q => [q]
  | b :: bs, q =>
    if b.unit = q.unit then ⟨b.value + q.value, b.unit⟩ :: bs
    else b :: GroupedQuantity.add bs q

/-! ## Ingredient aggregator (`get_ingredients_by_section`) -/

/-- One aggregated ingredient: first-occurrence table index, the ingredient
looked up at that first mention, and the summed quantity (cooklang
`GroupedIngredient`; also the value triple of the source's per-section
`HashMap`, whose key always equals the stored ingredient's name). -/
structure GroupedIngredient where
  index : Nat
  ingredient : Ingredient
  quantity : GroupedQuantity
deriving DecidableEq

/-- Lookup of the accumulated entry for a name (`HashMap` key lookup). -/
def findEntry : List GroupedIngredient → String → Option GroupedIngredient
  | [], _ => none
  | e :: rest, name => if e.ingredient.name = name then some e else findEntry rest name

/-- Processing of one `Item::Ingredient { index }` mention: `entry(name)
.or_insert((index, ingredient, GroupedQuantity::default()))`, then add the
mention's quantity into the entry's grouped quantity.  Entries are kept in
insertion order; the `HashMap`'s arbitrary iteration order is irrelevant
because the subsequent sort key (first-occurrence index) is distinct across
distinct names. -/
def insertMention (entries : List GroupedIngredient) (recipe : Recipe) (index : Nat) :
    List GroupedIngredient :=
  let ingredient := ingAt recipe index
  let name := ingredient.name
  let entries1 :=
    if (findEntry entries name).isSome then entries
    else entries ++ [⟨index, ingredient, []⟩]
  match ingredient.quantity with
  | some q =>
      entries1.map fun e =>
        if e.ingredient.name = name then ⟨e.index, e.ingredient, e.quantity.add q⟩ else e
  | none => entries1

/-- The ingredient mentions of a section, in walk order: every
`Item::Ingredient` index inside every `Content::Step`, skipping text. -/
def sectionMentions (sec : Section) : List Nat :=
  sec.content.flatMap fun c =>
    match c with
    | .Step st =>
        st.items.filterMap fun it =>
          match it with
          | .Ingredient i => some i
          | _ => none
    | .Text _ => []

/-- The per-section walk: fold the mentions into the (initially empty)
name-keyed accumulator. -/
def aggregateMentions (recipe : Recipe) (mentions : List Nat) : List GroupedIngredient :=
  mentions.foldl (fun entries i => insertMention entries recipe i) []

/-- The sort ordering of `output_ingredients.sort_by_key(|gi| gi.index)`. -/
def byIndex (a b : GroupedIngredient) : Prop := a.index ≤ b.index

instance : DecidableRel byIndex := fun a b => Nat.decLe a.index b.index

/-- One section's grouped ingredients: walk, then sort ascending by
first-occurrence index. -/
def aggregateSection (recipe : Recipe) (sec : Section) : List GroupedIngredient :=
  List.insertionSort byIndex (aggregateMentions recipe (sectionMentions sec))

/-- `get_ingredients_by_section`: per section, a fresh accumulator is
walked and sorted; the section's optional name is carried along. -/
def get_ingredients_by_section (recipe : Recipe) :
    List (Option String × List GroupedIngredient) :=
  recipe.sections.map fun sec => (sec.name, aggregateSection recipe sec)

/-! ## Ingredient listing (`ingredient_list`) -/

/-- `quantity.iter().map(format_quantity).reduce(|a, b| format!("{a}, {b}"))`. -/
def reduceJoin : List String → Option String
  | [] => none
  | s :: rest => some (rest.foldl (fun a b => a ++ ", " ++ b) s)

/-- The lines emitted for one section's grouped ingredients. -/
def renderGrouped (b : LatexBuilder) : List GroupedIngredient → LatexBuilder
  | [] => b
  | gi :: rest =>
    if gi.ingredient.modifiers.should_be_listed then
      let parts :=
        match reduceJoin (gi.quantity.map format_quantity) with
        | some qty_str => [qty_str, gi.ingredient.name]
        | none => [gi.ingredient.name]
      let args :=
        [Arg.required (sanitize_latex (String.intercalate " " parts))] ++
          (if gi.ingredient.modifiers.is_optional then [⟨"\\BooleanTrue", true⟩] else [])
      renderGrouped (add_command b "ingredient" args) rest
    else
      renderGrouped b rest

/-- `ingredient_list`: section heading (when named) then the entries. -/
def ingredient_list (ingredients : List (Option String × List GroupedIngredient)) :
    LatexBuilder :=
  ingredients.foldl
    (fun b sec =>
      let b1 :=
        match sec.1 with
        | some name => add_simple_command b "ingredientsection" (sanitize_latex name)
        | none => b
      renderGrouped b1 sec.2)
    []

/-! ## Instruction listing (`instruction_list`, `step_text`) -/

/-- Rendering of one step item inside `step_text`; a timer item can hit the
`format_timer` invariant panic. -/
def renderItem (recipe : Recipe) : Item → RenderResult String
  | .Text value => .ok value
  | .Ingredient index => .ok (ingAt recipe index).display_name
  | .Cookware index => .ok (recipe.cookware.getD index ⟨""⟩).name
  | .Timer index =>
      let t := recipe.timers.getD index ⟨none, none⟩
      format_timer t.quantity t.name
  | .InlineQuantity index =>
      .ok (format_quantity (recipe.inline_quantities.getD index ⟨0, none⟩))

/-- `step_text`: concatenation of the rendered items, in order. -/
def step_text (recipe : Recipe) (step : Step) : RenderResult String :=
  step.items.foldl
    (fun acc it => acc.bind fun s => (renderItem recipe it).bind fun r => .ok (s ++ r))
    (.ok "")

/-- One section's instruction lines: each content entry becomes one
escaped `\step` line. -/
def renderContents (recipe : Recipe) (b : LatexBuilder) :
    List Content → RenderResult LatexBuilder
  | [] => .ok b
  | c :: rest =>
    (match c with
      | .Step st => step_text recipe st
      | .Text t => .ok t).bind fun instruction =>
      renderContents recipe (add_simple_command b "step" (sanitize_latex instruction)) rest

/-- The per-section loop of `instruction_list`: a section heading is
emitted only when the recipe has more than one section and the section is
named. -/
def renderSections (recipe : Recipe) (b : LatexBuilder) :
    List Section → RenderResult LatexBuilder
  | [] => .ok b
  | sec :: rest =>
    let b1 :=
      match sec.name with
      | some name =>
          if recipe.sections.length > 1 then
            add_simple_command b "instructionsection" (sanitize_latex name)
          else b
      | none => b
    (renderContents recipe b1 sec.content).bind fun b2 => renderSections recipe b2 rest

/-- `instruction_list`. -/
def instruction_list (recipe : Recipe) : RenderResult LatexBuilder :=
  renderSections recipe [] recipe.sections

/-! ## Recipe renderer (`create_recipe`, `recipe_meta`) -/

/-- `recipe_meta`: servings is read with `expect`, so its absence is a
panic, not an `Err`; missing prep or cook time becomes the empty string via
`unwrap_or_default`. -/
def recipe_meta (meta : Metadata) : RenderResult (List Arg) :=
  match meta.servings with
  | none => .panicked "Servings must be defined"
  | some servings =>
    let times := RecipeTime.from_metadata meta
    let prep_time := (times.prep_time.map format_time).getD ""
    let cook_time := (times.cook_time.map format_time).getD ""
    .ok [Arg.required (toString servings), Arg.required prep_time,
         Arg.required cook_time, Arg.required "Moderate"]

/-- `build_recipe_content`: the `ingredients` and `instructions`
environments. -/
def build_recipe_content (recipe : Recipe) : RenderResult LatexBuilder :=
  let grouped_ingredients := get_ingredients_by_section recipe
  let ingredients := ingredient_list grouped_ingredients
  (instruction_list recipe).bind fun ins =>
    .ok (add_env (add_env [] "ingredients" ingredients) "instructions" ins)

/-- `create_recipe`: title and description are checked with `context`
(recoverable errors, in that order); the recipe content is built before the
meta command, and `recipe_meta` can panic. -/
def create_recipe (recipe : Recipe) : RenderResult String :=
  match recipe.metadata.title with
  | none => .error "Recipe must have a title"
  | some title =>
    match recipe.metadata.description with
    | none => .error "Recipe must have a description"
    | some description =>
      (build_recipe_content recipe).bind fun recipe_content =>
        (recipe_meta recipe.metadata).bind fun meta =>
          .ok (LatexBuilder.build
            (add_env
              (add_command
                (add_simple_command
                  (add_simple_command [] "recipeheader" title)
                  "recipedesc" description)
                "recipemeta" meta)
              "recipe" recipe_content))

/-! ## Transpilation pipeline (`transpile_collection`, `transpile_recipe`)

Modelled from the spec: the `io` module (`mod io` in `main.rs`) is not part
of the provided sources.  Per §6 it supplies directory listing,
read-file-to-string and write-string-to-file; reading or listing can fail.
A file therefore enters the pipeline as either unreadable, unparsable
(parse errors come from the external cooklang parser), or a parsed recipe
with its file stem.  The transpiler is modelled with no unit-system
conversion requested (`convert: None`); the conversion pass only rewrites
quantities and prints non-fatal warnings, and no claim depends on it. -/

/-- The per-file input to `transpile_recipe`, with I/O and parsing
outcomes made explicit. -/
inductive FileInput where
  | unreadable (path : String)
  | parseError (path : String)
  | parsed (stem : String) (recipe : Recipe)

/-- `transpile_recipe`: read, parse, render, write; the relative output
path is `<collection_name>/<stem>.tex`. -/
def transpile_recipe (collection_name : String) : FileInput → RenderResult String
  | .unreadable path => .error ("Failed to read file: " ++ path)
  | .parseError path => .error ("Failed to parse recipe: " ++ path)
  | .parsed stem recipe =>
      (create_recipe recipe).bind fun _latex =>
        .ok (collection_name ++ "/" ++ stem ++ ".tex")

/-- The per-file loop of `transpile_collection`: an `Err` prints a warning
and the loop continues; a panic unwinds immediately. -/
def transpileFiles (collection_name : String) (acc : List String) :
    List FileInput → RenderResult (List String)
  | [] =>
      if acc = [] then
        .error ("No recipes were successfully compiled in collection: " ++ collection_name)
      else .ok acc
  | f :: rest =>
    match transpile_recipe collection_name f with
    | .ok relative_path => transpileFiles collection_name (acc ++ [relative_path]) rest
    | .error _ => transpileFiles collection_name acc rest
    | .panicked m => .panicked m

/-- `transpile_collection`: a failed directory listing is an error with
context; otherwise every listed file is attempted and the collection fails
exactly when no file succeeded. -/
def transpile_collection (collection_name : String) (listing : Option (List FileInput)) :
    RenderResult (List String) :=
  match listing with
  | none => .error ("Failed to read collection: " ++ collection_name)
  | some files => transpileFiles collection_name [] files

/-! ## Top-level driver (`main.rs`) -/

/-- The `while let` loop over a collection's result files: one `\input`
line per recipe, with `\newpage` between consecutive recipes and not after
the last. -/
def addInputs (b : LatexBuilder) : List String → LatexBuilder
  | [] => b
  | [f] => add_simple_command b "input" f
  | f :: g :: rest =>
      addInputs (add_command (add_simple_command b "input" f) "newpage" []) (g :: rest)

/-- The chapter line emitted for a collection. -/
def chapterLine (collection_name : String) : String :=
  "\\chapter\x7b" ++ collection_name ++ "\x7d"

/-- The `for collection in &cli.collections` loop of `main`: the chapter
heading is appended before transpilation is attempted; a failed collection
prints a warning and contributes nothing further; a panic aborts. -/
def main_loop (b : LatexBuilder) :
    List (String × Option (List FileInput)) → RenderResult LatexBuilder
  | [] => .ok b
  | (collection_name, listing) :: rest =>
    let b1 := add_simple_command b "chapter" collection_name
    match transpile_collection collection_name listing with
    | .ok recipe_files => main_loop (addInputs b1 recipe_files) rest
    | .error _ => main_loop b1 rest
    | .panicked m => .panicked m

/-! ## Template substitution (`replace_in_main_tex`)

Modelled from the spec: `io::read_file` / `io::write_file` are external to
the provided sources; an unreadable template is `none`, and the value
produced is the content written back to `main.tex`. -/

/-- The placeholder token of the table-of-contents fragment. -/
def placeholder : String := "%\x7b\x7brecipes\x7d\x7d"

/-- `replace_in_main_tex`: read the template, apply `String::replace` of
the placeholder by the fragment, write the result back. -/
def replace_in_main_tex (main_tex_contents : Option String) (new_content : String) :
    Option String :=
  main_tex_contents.map fun contents => rustReplace contents placeholder new_content

/-! ## Lemmas about `replaceAllAux` -/

/-- Replacement on the empty list is the empty list, for any fuel. -/
theorem replaceAllAux_nil (pat repl : List Char) (fuel : Nat) :
    replaceAllAux pat repl fuel [] = [] := by
  cases fuel <;> rfl

/-- Single-character replacement is a character-wise flat map. -/
theorem replace_single_char (c : Char) (repl : List Char) :
    ∀ (s : List Char) (fuel : Nat), s.length ≤ fuel →
      replaceAllAux [c] repl fuel s = s.flatMap fun a => if a = c then repl else [a]
  | [], fuel, _ => by simp [replaceAllAux_nil]
  | a :: as, 0, h => absurd h (by simp)
  | a :: as, fuel + 1, h => by
      have ih := replace_single_char c repl as fuel (by simpa using h)
      by_cases hac : a = c
      · subst hac
        simp [replaceAllAux, List.isPrefixOf, ih]
      · have : (c == a) = false := by simpa [beq_iff_eq] using fun h => hac h.symm
        simp [replaceAllAux, List.isPrefixOf, this, hac, ih]

/-- The character-wise escape performed for one of the four reserved
characters. -/
def escChar (c a : Char) : List Char := if a = c then ['\\', c] else [a]

/-- One `String::replace` call with a single-character pattern, stated on
strings. -/
theorem rustReplace_single (s : String) (c : Char) (repl : String) :
    rustReplace s ⟨[c]⟩ repl = ⟨s.data.flatMap fun a => if a = c then repl.data else [a]⟩ := by
  unfold rustReplace
  exact congrArg String.mk (replace_single_char c repl.data s.data s.data.length le_rfl)

/-- The combined escape of all four reserved characters. -/
def escapeChar (a : Char) : List Char :=
  if a = '&' ∨ a = '%' ∨ a = '$' ∨ a = '#' then ['\\', a] else [a]

/-- Flat maps compose. -/
theorem flatMap_comp (f g : Char → List Char) :
    ∀ l : List Char, (l.flatMap f).flatMap g = l.flatMap fun c => (f c).flatMap g
  | [] => by simp
  | c :: l => by simp [flatMap_comp f g l]

/-- Chaining the four single-character escapes equals the combined escape:
the backslashes introduced by earlier replacements are never re-escaped,
because `\` is not among the replaced characters. -/
theorem escChar_chain (a : Char) :
    ((escChar '&' a).flatMap fun c => (escChar '%' c).flatMap fun c =>
        (escChar '$' c).flatMap (escChar '#'))
      = escapeChar a := by
  by_cases h1 : a = '&'
  · subst h1; decide
  · by_cases h2 : a = '%'
    · subst h2; decide
    · by_cases h3 : a = '$'
      · subst h3; decide
      · by_cases h4 : a = '#'
        · subst h4; decide
        · simp [escChar, escapeChar, h1, h2, h3, h4]

/-- C7: for every input string, `sanitize_latex` escapes each occurrence of
`&`, `%`, `$` and `#` by prefixing a backslash and leaves every other
character unchanged (character-wise flat map); in particular
`"50% Tomato & Basil"` maps to `"50\% Tomato \& Basil"`. -/
theorem C7_sanitize_escapes :
    (∀ s : String, sanitize_latex s = ⟨s.data.flatMap escapeChar⟩) ∧
    sanitize_latex "50% Tomato & Basil" = "50\\% Tomato \\& Basil" := by
  refine ⟨fun s => ?_, by decide⟩
  show rustReplace (rustReplace (rustReplace (rustReplace s ⟨['&']⟩ "\\&") ⟨['%']⟩ "\\%")
      ⟨['$']⟩ "\\$") ⟨['#']⟩ "\\#" = ⟨s.data.flatMap escapeChar⟩
  rw [rustReplace_single, rustReplace_single, rustReplace_single, rustReplace_single]
  show String.mk ((((s.data.flatMap (escChar '&')).flatMap (escChar '%')).flatMap
      (escChar '$')).flatMap (escChar '#')) = _
  rw [flatMap_comp, flatMap_comp, flatMap_comp]
  refine congrArg String.mk ?_
  refine List.flatMap_congr ?_
  intro a _
  exact escChar_chain a

/-- C6: `format_time` realises the spec's formula on whole minutes, and
maps the five spec examples to the stated strings. -/
theorem C6_time_format :
    (∀ m : Nat, format_time m =
        if m < 60 then toString m ++ " mins"
        else if m % 60 = 0 then toString (m / 60) ++ " hrs"
        else toString (m / 60) ++ " hrs " ++ toString (m % 60) ++ " mins") ∧
    format_time 0 = "0 mins" ∧ format_time 59 = "59 mins" ∧ format_time 60 = "1 hrs" ∧
    format_time 90 = "1 hrs 30 mins" ∧ format_time 125 = "2 hrs 5 mins" := by
  refine ⟨fun m => rfl, by decide, by decide, by decide, by decide, by decide⟩

/-- C9: `format_timer` renders the three representable cases as the spec
states, the doubly-absent case is the fatal invariant branch, and that
branch is unreachable under the precondition that a timer has a quantity or
a name. -/
theorem C9_format_timer :
    (∀ (qty : Quantity) (name : String),
        format_timer (some qty) (some name) =
          .ok (format_quantity qty ++ " (" ++ name ++ ")")) ∧
    (∀ qty : Quantity, format_timer (some qty) none = .ok (format_quantity qty)) ∧
    (∀ name : String, format_timer none (some name) = .ok name) ∧
    format_timer none none = .panicked "Timer must have either quantity or name" ∧
    (∀ (q : Option Quantity) (n : Option String), q.isSome ∨ n.isSome →
        ∃ s, format_timer q n = .ok s) := by
  refine ⟨fun _ _ => rfl, fun _ => rfl, fun _ => rfl, rfl, ?_⟩
  rintro (_ | q) (_ | n) h
  · simp at h
  · exact ⟨n, rfl⟩
  · exact ⟨format_quantity q, rfl⟩
  · exact ⟨format_quantity q ++ " (" ++ n ++ ")", rfl⟩

/-- Witness for C9 at a concrete timer with a name and no quantity. -/
theorem C9_format_timer_witness :
    ∃ s, format_timer none (some "boil") = RenderResult.ok s :=
  C9_format_timer.2.2.2.2 none (some "boil") (Or.inr rfl)

/-- Replacement leaves a string without any occurrence of the pattern
unchanged. -/
theorem replaceAllAux_no_occurrence (pat repl : List Char) :
    ∀ (s : List Char) (fuel : Nat), containsSub pat s = false → s.length ≤ fuel →
      replaceAllAux pat repl fuel s = s
  | [], fuel, _, _ => replaceAllAux_nil pat repl fuel
  | c :: cs, 0, _, hfuel => absurd hfuel (by simp)
  | c :: cs, fuel + 1, hno, hfuel => by
      have hsplit : pat.isPrefixOf (c :: cs) = false ∧ containsSub pat cs = false := by
        simpa [containsSub] using hno
      have ih := replaceAllAux_no_occurrence pat repl cs fuel hsplit.2 (by simpa using hfuel)
      simp [replaceAllAux, hsplit.1, ih]

/-- When the pattern occurs exactly once — no match starts inside the
prefix `a` and none occurs in the suffix `b` — replacement substitutes
exactly that one occurrence. -/
theorem replaceAllAux_single_occurrence (pat repl : List Char) (hpat : pat ≠ []) :
    ∀ (a : List Char) (b : List Char) (fuel : Nat),
      (∀ i, i < a.length → pat.isPrefixOf (List.drop i (a ++ pat ++ b)) = false) →
      containsSub pat b = false →
      (a ++ pat ++ b).length ≤ fuel →
      replaceAllAux pat repl fuel (a ++ pat ++ b) = a ++ repl ++ b
  | [], b, fuel, _, hb, hfuel => by
      obtain ⟨p, ps, rfl⟩ : ∃ p ps, pat = p :: ps := by
        cases pat with
        | nil => exact absurd rfl hpat
        | cons p ps => exact ⟨p, ps, rfl⟩
      cases fuel with
      | zero => exact absurd hfuel (by simp)
      | succ f =>
          have hlen : b.length ≤ f := by
            simp [List.length_append] at hfuel
            omega
          have hshape : ([] : List Char) ++ (p :: ps) ++ b = p :: (ps ++ b) := by simp
          rw [hshape]
          simp only [replaceAllAux]
          have hcond : (p :: ps).isPrefixOf (p :: (ps ++ b)) = true := by
            have h := List.isPrefixOf_iff_prefix.mpr (List.prefix_append (p :: ps) b)
            simp only [List.cons_append] at h
            exact h
          rw [if_pos hcond]
          have hdrop : List.drop (p :: ps).length (p :: (ps ++ b)) = b := by
            have h := List.drop_left (p :: ps) b
            simp only [List.cons_append] at h
            exact h
          rw [hdrop, replaceAllAux_no_occurrence (p :: ps) repl b f hb hlen]
          simp
  | x :: a, b, fuel, ha, hb, hfuel => by
      cases fuel with
      | zero => exact absurd hfuel (by simp)
      | succ f =>
          have hhead : pat.isPrefixOf (x :: (a ++ pat ++ b)) = false := by
            have h := ha 0 (by simp)
            simpa using h
          have ha' : ∀ i, i < a.length →
              pat.isPrefixOf (List.drop i (a ++ pat ++ b)) = false := by
            intro i hi
            have h := ha (i + 1) (by simp; omega)
            simpa using h
          have hfuel' : (a ++ pat ++ b).length ≤ f := by
            simpa using hfuel
          have ih := replaceAllAux_single_occurrence pat repl hpat a b f ha' hb hfuel'
          have hshape : (x :: a) ++ pat ++ b = x :: (a ++ pat ++ b) := by simp
          rw [hshape]
          simp only [replaceAllAux]
          rw [if_neg (by simp only [hhead]; exact Bool.false_ne_true)]
          rw [ih]
          simp

/-- C1 counterexample: with a template lacking the placeholder token the
substitution succeeds silently and leaves the template unchanged, instead
of failing loudly; with a template containing the token twice, both
occurrences are replaced, not exactly one. -/
theorem C1_counterexample :
    containsSubStr placeholder "no token here" = false ∧
    replace_in_main_tex (some "no token here") "X" = some "no token here" ∧
    replace_in_main_tex (some "no token here") "X" ≠ none ∧
    replace_in_main_tex (some (placeholder ++ placeholder)) "X" = some "XX" := by
  refine ⟨by decide, by decide, by decide, by decide⟩

/-- C1 (amended): the substitution replaces every left-to-right occurrence
of the placeholder — in particular exactly the one occurrence when the
template contains it exactly once; a template without the placeholder is
written back unchanged with no error; the operation fails exactly when the
template file is unreadable. -/
theorem C1_replace_in_main_tex :
    (∀ new_content, replace_in_main_tex none new_content = none) ∧
    (∀ template new_content, containsSubStr placeholder template = false →
        replace_in_main_tex (some template) new_content = some template) ∧
    (∀ (a b : List Char) (new_content : String),
        (∀ i, i < a.length →
          placeholder.data.isPrefixOf (List.drop i (a ++ placeholder.data ++ b)) = false) →
        containsSub placeholder.data b = false →
        replace_in_main_tex (some ⟨a ++ placeholder.data ++ b⟩) new_content =
          some ⟨a ++ new_content.data ++ b⟩) := by
  refine ⟨fun _ => rfl, fun template new_content h => ?_, fun a b new_content ha hb => ?_⟩
  · show some (rustReplace template placeholder new_content) = some template
    unfold rustReplace
    rw [replaceAllAux_no_occurrence placeholder.data new_content.data template.data
      template.data.length h le_rfl]
  · show some (rustReplace ⟨a ++ placeholder.data ++ b⟩ placeholder new_content) = _
    unfold rustReplace
    rw [replaceAllAux_single_occurrence placeholder.data new_content.data (by decide)
      a b _ ha hb le_rfl]

/-- Witness for C1 at a template containing the placeholder exactly once. -/
theorem C1_replace_in_main_tex_witness :
    replace_in_main_tex (some "T %\x7b\x7brecipes\x7d\x7d B") "X" = some "T X B" :=
  C1_replace_in_main_tex.2.2 "T ".data " B".data "X" (by decide) (by decide)

/-! ## Pipeline lemmas -/

/-- The relative paths of the files a collection transpiles successfully,
in file order. -/
def successPaths (collection_name : String) (files : List FileInput) : List String :=
  files.filterMap fun f =>
    match transpile_recipe collection_name f with
    | .ok p => some p
    | _ => none

/-- A file whose transpilation returns an error is skipped: the loop
behaves as if the file were not listed. -/
theorem transpileFiles_skip_error (cname : String) (f : FileInput) (e : String)
    (hf : transpile_recipe cname f = .error e) :
    ∀ (pre post : List FileInput) (acc : List String),
      transpileFiles cname acc (pre ++ f :: post) = transpileFiles cname acc (pre ++ post)
  | [], post, acc => by
      simp only [List.nil_append, transpileFiles, hf]
  | x :: pre, post, acc => by
      cases hx : transpile_recipe cname x with
      | ok p =>
          simp only [List.cons_append, transpileFiles, hx]
          exact transpileFiles_skip_error cname f e hf pre post (acc ++ [p])
      | error e2 =>
          simp only [List.cons_append, transpileFiles, hx]
          exact transpileFiles_skip_error cname f e hf pre post acc
      | panicked m =>
          simp only [List.cons_append, transpileFiles, hx]

/-- In a run where no file panics, the per-collection loop returns the
successful paths, or the collection-level error when there are none. -/
theorem transpileFiles_eq (cname : String) :
    ∀ (files : List FileInput) (acc : List String),
      (∀ f ∈ files, ∀ m, transpile_recipe cname f ≠ .panicked m) →
      transpileFiles cname acc files =
        if acc ++ successPaths cname files = [] then
          .error ("No recipes were successfully compiled in collection: " ++ cname)
        else .ok (acc ++ successPaths cname files)
  | [], acc, _ => by
      simp [transpileFiles, successPaths]
  | f :: files, acc, h => by
      have hf := h f (by simp)
      have hrest : ∀ g ∈ files, ∀ m, transpile_recipe cname g ≠ RenderResult.panicked m :=
        fun g hg => h g (by simp [hg])
      cases hx : transpile_recipe cname f with
      | ok p =>
          have ih := transpileFiles_eq cname files (acc ++ [p]) hrest
          have hsp : successPaths cname (f :: files) = p :: successPaths cname files := by
            simp [successPaths, List.filterMap_cons, hx]
          have hacc : acc ++ [p] ++ successPaths cname files =
              acc ++ p :: successPaths cname files := by simp
          simp only [transpileFiles, hx, ih, hsp, hacc]
      | error e =>
          have ih := transpileFiles_eq cname files acc hrest
          have hsp : successPaths cname (f :: files) = successPaths cname files := by
            simp [successPaths, List.filterMap_cons, hx]
          simp only [transpileFiles, hx, ih, hsp]
      | panicked m => exact absurd hx (hf m)

/-! ## Concrete recipes used in counterexamples and witnesses -/

/-- A recipe with title and description but no servings metadata. -/
def noServingsRecipe : Recipe :=
  ⟨⟨some "Bad", some "Desc", none, none, none⟩,
    [⟨none, [.Step ⟨[.Text "mix"]⟩]⟩], [], [], [], []⟩

/-- A recipe with no title. -/
def noTitleRecipe : Recipe :=
  ⟨⟨none, some "Desc", some 1, none, none⟩,
    [⟨none, [.Step ⟨[.Text "mix"]⟩]⟩], [], [], [], []⟩

/-- A complete, rendering recipe. -/
def okRecipe : Recipe :=
  ⟨⟨some "Good", some "Desc", some 2, none, none⟩,
    [⟨none, [.Step ⟨[.Text "stir"]⟩]⟩], [], [], [], []⟩

/-- C2 counterexample: a recipe missing only the servings metadata does not
fail with a per-recipe error — `recipe_meta` panics, the panic unwinds
through the per-file loop, and the sibling recipe in the same collection
(which renders fine on its own) is not rendered. -/
theorem C2_counterexample :
    create_recipe noServingsRecipe = .panicked "Servings must be defined" ∧
    transpile_collection "c"
        (some [.parsed "bad" noServingsRecipe, .parsed "good" okRecipe]) =
      .panicked "Servings must be defined" ∧
    transpile_collection "c" (some [.parsed "good" okRecipe]) = .ok ["c/good.tex"] := by
  exact ⟨by decide, by decide, by decide⟩

/-- C2 (amended): a missing title or description fails with a per-recipe
error, and an error-failing file is skipped so sibling recipes still
render; a missing servings metadata instead panics, aborting the whole
run rather than failing that one recipe. -/
theorem C2_metadata_failures :
    (∀ r : Recipe, r.metadata.title = none →
        create_recipe r = .error "Recipe must have a title") ∧
    (∀ (r : Recipe) (t : String), r.metadata.title = some t →
        r.metadata.description = none →
        create_recipe r = .error "Recipe must have a description") ∧
    (∀ (r : Recipe) (t d : String) (content : LatexBuilder),
        r.metadata.title = some t → r.metadata.description = some d →
        r.metadata.servings = none → build_recipe_content r = .ok content →
        create_recipe r = .panicked "Servings must be defined") ∧
    (∀ (cname : String) (pre post : List FileInput) (f : FileInput) (e : String),
        transpile_recipe cname f = .error e →
        transpileFiles cname [] (pre ++ f :: post) = transpileFiles cname [] (pre ++ post)) := by
  refine ⟨fun r h => ?_, fun r t h1 h2 => ?_, fun r t d content h1 h2 h3 h4 => ?_,
    fun cname pre post f e hf => transpileFiles_skip_error cname f e hf pre post []⟩
  · simp [create_recipe, h]
  · simp [create_recipe, h1, h2]
  · simp [create_recipe, h1, h2, h4, RenderResult.bind, recipe_meta, h3]

/-- Witness for C2 at a concrete recipe with no title. -/
theorem C2_metadata_failures_witness :
    create_recipe noTitleRecipe = RenderResult.error "Recipe must have a title" :=
  C2_metadata_failures.1 noTitleRecipe rfl

/-- C5 counterexample: a collection in which zero files transpile
successfully is not always reported failed to the caller — when the file's
rendering panics (missing servings), the loop neither warns-and-continues
nor returns the collection-level error; the process aborts. -/
theorem C5_counterexample :
    successPaths "c" [.parsed "bad" noServingsRecipe] = [] ∧
    transpile_collection "c" (some [.parsed "bad" noServingsRecipe]) =
      .panicked "Servings must be defined" ∧
    transpile_collection "c" (some [.parsed "bad" noServingsRecipe]) ≠
      .error "No recipes were successfully compiled in collection: c" := by
  exact ⟨by decide, by decide, by decide⟩

/-- C5 (amended): in a run where no file's rendering panics, a file whose
transpilation fails is skipped and the loop continues with the next file,
and the collection is reported failed to the caller exactly when zero of
its files transpile successfully. -/
theorem C5_collection_failure :
    (∀ (cname : String) (files : List FileInput),
        (∀ f ∈ files, ∀ m, transpile_recipe cname f ≠ .panicked m) →
        (successPaths cname files = [] →
            transpile_collection cname (some files) =
              .error ("No recipes were successfully compiled in collection: " ++ cname)) ∧
        (successPaths cname files ≠ [] →
            transpile_collection cname (some files) = .ok (successPaths cname files))) ∧
    (∀ (cname : String) (pre post : List FileInput) (f : FileInput) (e : String)
        (acc : List String),
        transpile_recipe cname f = .error e →
        transpileFiles cname acc (pre ++ f :: post) = transpileFiles cname acc (pre ++ post)) := by
  refine ⟨fun cname files h => ?_, fun cname pre post f e acc hf =>
    transpileFiles_skip_error cname f e hf pre post acc⟩
  have heq := transpileFiles_eq cname files [] h
  constructor
  · intro hempty
    show transpileFiles cname [] files = _
    rw [heq, hempty]
    simp
  · intro hne
    show transpileFiles cname [] files = _
    rw [heq]
    simp [hne]

/-- Witness for C5: a collection with one unparsable file and one good file
still returns the good file's path. -/
theorem C5_collection_failure_witness :
    transpile_collection "c" (some [FileInput.parseError "x", FileInput.parsed "good" okRecipe]) =
      RenderResult.ok ["c/good.tex"] := by
  have hnp : ∀ f ∈ [FileInput.parseError "x", FileInput.parsed "good" okRecipe],
      ∀ m, transpile_recipe "c" f ≠ RenderResult.panicked m := by
    intro f hf m
    rcases List.mem_cons.mp hf with rfl | hf2
    · have h1 : transpile_recipe "c" (FileInput.parseError "x") =
        RenderResult.error "Failed to parse recipe: x" := by decide
      rw [h1]
      simp
    · rcases List.mem_singleton.mp hf2 with rfl
      have h2 : transpile_recipe "c" (FileInput.parsed "good" okRecipe) =
          RenderResult.ok "c/good.tex" := by decide
      rw [h2]
      simp
  have hs : successPaths "c" [FileInput.parseError "x", FileInput.parsed "good" okRecipe] =
      ["c/good.tex"] := by decide
  have h := (C5_collection_failure.1 "c"
    [FileInput.parseError "x", FileInput.parsed "good" okRecipe] hnp).2 (by rw [hs]; simp)
  rw [hs] at h
  exact h

/-! ## Driver lemmas -/

/-- The builder only ever grows: the input-file loop keeps the existing
lines as a prefix. -/
theorem addInputs_grows : ∀ (fs : List String) (b : LatexBuilder), b <+: addInputs b fs
  | [], b => List.prefix_rfl
  | [f], b => by
      simpa [addInputs, add_simple_command, add_command] using
        List.prefix_append b _
  | f :: g :: rest, b => by
      refine List.IsPrefix.trans ?_
        (addInputs_grows (g :: rest) (add_command (add_simple_command b "input" f) "newpage" []))
      simpa [add_simple_command, add_command, List.append_assoc] using
        List.prefix_append b _

/-- The driver loop keeps the accumulated lines as a prefix of its final
output. -/
theorem main_loop_grows :
    ∀ (cols : List (String × Option (List FileInput))) (b out : LatexBuilder),
      main_loop b cols = .ok out → b <+: out
  | [], b, out, h => by
      simp only [main_loop, RenderResult.ok.injEq] at h
      exact h ▸ List.prefix_rfl
  | (name, listing) :: rest, b, out, h => by
      cases hx : transpile_collection name listing with
      | ok files =>
          simp only [main_loop, hx] at h
          refine List.IsPrefix.trans ?_ (main_loop_grows rest _ out h)
          refine List.IsPrefix.trans ?_ (addInputs_grows files _)
          simpa [add_simple_command, add_command] using List.prefix_append b _
      | error e =>
          simp only [main_loop, hx] at h
          refine List.IsPrefix.trans ?_ (main_loop_grows rest _ out h)
          simpa [add_simple_command, add_command] using List.prefix_append b _
      | panicked m => simp [main_loop, hx] at h

/-- C10: the chapter heading of a collection is appended before its
transpilation is attempted, so a collection that fails entirely still
leaves its heading — followed immediately by the rest of the run's output,
with no input-file commands under it; and every collection of a completed
run has its chapter line in the fragment. -/
theorem C10_failed_collection_heading :
    (∀ (b : LatexBuilder) (collection_name : String) (listing : Option (List FileInput))
        (rest : List (String × Option (List FileInput))) (e : String),
        transpile_collection collection_name listing = .error e →
        main_loop b ((collection_name, listing) :: rest) =
          main_loop (b ++ [chapterLine collection_name]) rest) ∧
    (∀ (cols : List (String × Option (List FileInput))) (b out : LatexBuilder),
        main_loop b cols = .ok out → ∀ p ∈ cols, chapterLine p.1 ∈ out) := by
  constructor
  · intro b collection_name listing rest e h
    simp only [main_loop, h]
    rfl
  · intro cols
    induction cols with
    | nil => intro b out h p hp; simp at hp
    | cons col rest ih =>
        intro b out h p hp
        obtain ⟨name, listing⟩ := col
        have hline : chapterLine name ∈ add_simple_command b "chapter" name := by
          show chapterLine name ∈ b ++ [chapterLine name]
          simp
        rcases List.mem_cons.mp hp with rfl | hprest
        · cases hx : transpile_collection name listing with
          | ok files =>
              simp only [main_loop, hx] at h
              have hpre := List.IsPrefix.trans (addInputs_grows files _)
                (main_loop_grows rest _ out h)
              exact hpre.sublist.subset hline
          | error e =>
              simp only [main_loop, hx] at h
              exact (main_loop_grows rest _ out h).sublist.subset hline
          | panicked m => simp [main_loop, hx] at h
        · cases hx : transpile_collection name listing with
          | ok files =>
              simp only [main_loop, hx] at h
              exact ih _ out h p hprest
          | error e =>
              simp only [main_loop, hx] at h
              exact ih _ out h p hprest
          | panicked m => simp [main_loop, hx] at h

/-- Witness for C10: a collection whose directory lists no files fails
entirely, and the loop still emits its chapter heading alone. -/
theorem C10_failed_collection_heading_witness :
    main_loop [] [("c", some [])] = main_loop ([] ++ [chapterLine "c"]) [] :=
  C10_failed_collection_heading.1 [] "c" (some []) []
    "No recipes were successfully compiled in collection: c" (by decide)

/-! ## The meta command (C8) -/

/-- The one line `add_command` emits for the meta command, with its four
required brace-wrapped arguments. -/
theorem add_command_recipemeta (b : LatexBuilder) (s p c : String) :
    add_command b "recipemeta"
        [Arg.required s, Arg.required p, Arg.required c, Arg.required "Moderate"] =
      b ++ ["\\recipemeta\x7b" ++ s ++ "\x7d\x7b" ++ p ++ "\x7d\x7b" ++ c ++ "\x7d\x7bModerate\x7d"] := by
  simp [add_command, formatArg, Arg.required, String.join, String.append_assoc]
  rfl

/-- C8: `recipe_meta` always returns exactly four positional (required)
arguments — servings, formatted prep time, formatted cook time, and the
fixed difficulty placeholder — with a missing time contributing an empty
string; and every recipe that renders emits a meta command line with
exactly those four brace groups. -/
theorem C8_meta_arguments :
    (∀ (meta : Metadata) (s : Nat), meta.servings = some s →
        recipe_meta meta = .ok
          [Arg.required (toString s),
           Arg.required ((meta.prep_time.map format_time).getD ""),
           Arg.required ((meta.cook_time.map format_time).getD ""),
           Arg.required "Moderate"] ∧
        (meta.prep_time = none → (meta.prep_time.map format_time).getD "" = "") ∧
        (meta.cook_time = none → (meta.cook_time.map format_time).getD "" = "")) ∧
    (∀ (r : Recipe) (out : String), create_recipe r = .ok out →
        ∃ (title description : String) (servings : Nat) (content : LatexBuilder),
          r.metadata.title = some title ∧ r.metadata.description = some description ∧
          r.metadata.servings = some servings ∧
          out = LatexBuilder.build
            (["\\recipeheader\x7b" ++ title ++ "\x7d",
              "\\recipedesc\x7b" ++ description ++ "\x7d",
              "\\recipemeta\x7b" ++ toString servings ++ "\x7d\x7b" ++
                (r.metadata.prep_time.map format_time).getD "" ++ "\x7d\x7b" ++
                (r.metadata.cook_time.map format_time).getD "" ++ "\x7d\x7bModerate\x7d",
              "\\begin\x7brecipe\x7d"] ++ content ++ ["\\end\x7brecipe\x7d"])) := by
  constructor
  · intro meta s hs
    refine ⟨?_, fun hp => by simp [hp], fun hc => by simp [hc]⟩
    simp [recipe_meta, RecipeTime.from_metadata, hs]
  · intro r out h
    cases ht : r.metadata.title with
    | none => simp [create_recipe, ht] at h
    | some title =>
    cases hd : r.metadata.description with
    | none => simp [create_recipe, ht, hd] at h
    | some description =>
    cases hc : build_recipe_content r with
    | error e => simp [create_recipe, ht, hd, hc, RenderResult.bind] at h
    | panicked m => simp [create_recipe, ht, hd, hc, RenderResult.bind] at h
    | ok content =>
    cases hs : r.metadata.servings with
    | none =>
        simp [create_recipe, ht, hd, hc, RenderResult.bind, recipe_meta, hs] at h
    | some servings =>
        refine ⟨title, description, servings, content, rfl, rfl, rfl, ?_⟩
        simp only [create_recipe, ht, hd, hc, RenderResult.bind, recipe_meta, hs,
          RecipeTime.from_metadata, RenderResult.ok.injEq] at h
        rw [← h]
        show LatexBuilder.build (add_env (add_command _ "recipemeta" _) "recipe" content) = _
        rw [add_command_recipemeta]
        rfl

/-- Witness for C8 at a concrete rendering recipe. -/
theorem C8_meta_arguments_witness :
    ∃ (title description : String) (servings : Nat) (content : LatexBuilder),
      okRecipe.metadata.title = some title ∧ okRecipe.metadata.description = some description ∧
      okRecipe.metadata.servings = some servings ∧
      "\\recipeheader\x7bGood\x7d\n\\recipedesc\x7bDesc\x7d\n\\recipemeta\x7b2\x7d\x7b\x7d\x7b\x7d\x7bModerate\x7d\n\\begin\x7brecipe\x7d\n\\begin\x7bingredients\x7d\n\\end\x7bingredients\x7d\n\\begin\x7binstructions\x7d\n\\step\x7bstir\x7d\n\\end\x7binstructions\x7d\n\\end\x7brecipe\x7d" =
        LatexBuilder.build
          (["\\recipeheader\x7b" ++ title ++ "\x7d",
            "\\recipedesc\x7b" ++ description ++ "\x7d",
            "\\recipemeta\x7b" ++ toString servings ++ "\x7d\x7b" ++
              (okRecipe.metadata.prep_time.map format_time).getD "" ++ "\x7d\x7b" ++
              (okRecipe.metadata.cook_time.map format_time).getD "" ++ "\x7d\x7bModerate\x7d",
            "\\begin\x7brecipe\x7d"] ++ content ++ ["\\end\x7brecipe\x7d"]) :=
  C8_meta_arguments.2 okRecipe _ (by set_option maxRecDepth 60000 in decide)

/-! ## Aggregator ordering (C3) -/

/-- The observable key of an aggregated entry: ingredient name and
first-occurrence index. -/
def entryKey (gi : GroupedIngredient) : String × Nat := (gi.ingredient.name, gi.index)

/-- The first-occurrence pairs of a mention walk: one `(name, index)` pair
per name, at the first mention whose name is not yet in `seen`, in walk
order. -/
def firstOcc (r : Recipe) (seen : List String) : List Nat → List (String × Nat)
  | [] => []
  | i :: rest =>
    if (ingAt r i).name ∈ seen then firstOcc r seen rest
    else ((ingAt r i).name, i) :: firstOcc r ((ingAt r i).name :: seen) rest

/-- The comparison `sort_by_key` induces on the observable keys. -/
def bySnd (a b : String × Nat) : Prop := a.2 ≤ b.2

instance : DecidableRel bySnd := fun a b => Nat.decLe a.2 b.2

/-- A name is found in the accumulator exactly when some entry carries it. -/
theorem findEntry_isSome (name : String) :
    ∀ entries : List GroupedIngredient,
      (findEntry entries name).isSome = true ↔
        name ∈ entries.map fun e => e.ingredient.name
  | [] => by simp [findEntry]
  | e :: es => by
      by_cases h : e.ingredient.name = name
      · simp [findEntry, h]
      · have hstep : findEntry (e :: es) name = findEntry es name := by
          simp [findEntry, h]
        rw [hstep, findEntry_isSome name es, List.map_cons]
        constructor
        · intro hm
          exact List.mem_cons_of_mem _ hm
        · intro hm
          rcases List.mem_cons.mp hm with he | hm2
          · exact absurd he.symm h
          · exact hm2

/-- Processing one mention preserves the keys of existing entries: a seen
name only accumulates quantity, an unseen name appends its key. -/
theorem insertMention_map_entryKey (entries : List GroupedIngredient) (r : Recipe) (i : Nat) :
    (insertMention entries r i).map entryKey =
      if (findEntry entries (ingAt r i).name).isSome then entries.map entryKey
      else entries.map entryKey ++ [((ingAt r i).name, i)] := by
  have hupd : ∀ (l : List GroupedIngredient) (q : Quantity),
      (l.map fun e =>
          if e.ingredient.name = (ingAt r i).name then
            ⟨e.index, e.ingredient, e.quantity.add q⟩
          else e).map entryKey = l.map entryKey := by
    intro l q
    rw [List.map_map]
    refine List.map_congr_left ?_
    intro e _
    by_cases h : e.ingredient.name = (ingAt r i).name <;> simp [entryKey, h]
  unfold insertMention
  cases hq : (ingAt r i).quantity with
  | none =>
      by_cases hf : (findEntry entries (ingAt r i).name).isSome <;> simp [hq, hf, entryKey]
  | some q =>
      by_cases hf : (findEntry entries (ingAt r i).name).isSome <;>
        simp [hq, hf, hupd, entryKey]

/-- The names of the accumulator, as the first components of its keys. -/
theorem map_name_eq_map_entryKey (l : List GroupedIngredient) :
    (l.map fun e => e.ingredient.name) = (l.map entryKey).map Prod.fst := by
  rw [List.map_map]
  rfl

/-- `firstOcc` depends on `seen` only through membership. -/
theorem firstOcc_congr (r : Recipe) :
    ∀ (ms : List Nat) (seen₁ seen₂ : List String), (∀ x, x ∈ seen₁ ↔ x ∈ seen₂) →
      firstOcc r seen₁ ms = firstOcc r seen₂ ms
  | [], _, _, _ => rfl
  | i :: ms, s₁, s₂, h => by
      by_cases hm : (ingAt r i).name ∈ s₁
      · simp [firstOcc, hm, (h _).mp hm, firstOcc_congr r ms s₁ s₂ h]
      · have hm2 : (ingAt r i).name ∉ s₂ := fun hx => hm ((h _).mpr hx)
        have h' : ∀ x, x ∈ (ingAt r i).name :: s₁ ↔ x ∈ (ingAt r i).name :: s₂ := by
          intro x
          simp [h x]
        simp [firstOcc, hm, hm2, firstOcc_congr r ms _ _ h']

/-- The fold over a mention list grows the accumulator's keys by exactly
the first occurrences of names not yet present. -/
theorem foldl_insertMention_entryKey (r : Recipe) :
    ∀ (ms : List Nat) (entries : List GroupedIngredient),
      ((ms.foldl (fun es i => insertMention es r i) entries).map entryKey) =
        entries.map entryKey ++
          firstOcc r (entries.map fun e => e.ingredient.name) ms
  | [], entries => by simp [firstOcc]
  | i :: ms, entries => by
      rw [List.foldl_cons, foldl_insertMention_entryKey r ms (insertMention entries r i)]
      by_cases hf : (findEntry entries (ingAt r i).name).isSome
      · have hek : (insertMention entries r i).map entryKey = entries.map entryKey := by
          rw [insertMention_map_entryKey, if_pos hf]
        have hseen : (ingAt r i).name ∈ entries.map fun e => e.ingredient.name :=
          (findEntry_isSome _ entries).mp hf
        rw [map_name_eq_map_entryKey (insertMention entries r i), hek,
          ← map_name_eq_map_entryKey entries]
        simp [firstOcc, hseen]
      · have hek : (insertMention entries r i).map entryKey =
            entries.map entryKey ++ [((ingAt r i).name, i)] := by
          rw [insertMention_map_entryKey, if_neg hf]
        have hseen : (ingAt r i).name ∉ entries.map fun e => e.ingredient.name :=
          fun hx => hf ((findEntry_isSome _ entries).mpr hx)
        rw [map_name_eq_map_entryKey (insertMention entries r i), hek]
        have hnames : ((entries.map entryKey) ++ [((ingAt r i).name, i)]).map Prod.fst =
            (entries.map fun e => e.ingredient.name) ++ [(ingAt r i).name] := by
          rw [List.map_append, ← map_name_eq_map_entryKey entries]
          rfl
        rw [hnames]
        have hcongr := firstOcc_congr r ms
          ((entries.map fun e => e.ingredient.name) ++ [(ingAt r i).name])
          ((ingAt r i).name :: entries.map fun e => e.ingredient.name)
          (by
            intro x
            simp only [List.mem_append, List.mem_cons, List.not_mem_nil, or_false]
            tauto)
        rw [hcongr]
        simp [firstOcc, hseen]

/-- Mapping commutes with `orderedInsert` along a key-reflecting function. -/
theorem orderedInsert_map {α β : Type} (f : α → β) (r : α → α → Prop) (r' : β → β → Prop)
    [DecidableRel r] [DecidableRel r'] (hf : ∀ a b, r a b ↔ r' (f a) (f b)) (a : α) :
    ∀ l : List α, (List.orderedInsert r a l).map f = List.orderedInsert r' (f a) (l.map f)
  | [] => rfl
  | b :: l => by
      by_cases h : r a b
      · simp [List.orderedInsert, h, (hf a b).mp h]
      · have h' : ¬ r' (f a) (f b) := fun hx => h ((hf a b).mpr hx)
        simp [List.orderedInsert, h, h', orderedInsert_map f r r' hf a l]

/-- Mapping commutes with `insertionSort` along a key-reflecting function. -/
theorem insertionSort_map {α β : Type} (f : α → β) (r : α → α → Prop) (r' : β → β → Prop)
    [DecidableRel r] [DecidableRel r'] (hf : ∀ a b, r a b ↔ r' (f a) (f b)) :
    ∀ l : List α, (List.insertionSort r l).map f = List.insertionSort r' (l.map f)
  | [] => rfl
  | a :: l => by
      simp only [List.insertionSort, List.map_cons]
      rw [orderedInsert_map f r r' hf a, insertionSort_map f r r' hf l]

/-- C3: the per-section grouped-ingredient list is the walk's accumulator
sorted ascending on the stored first-occurrence index; its observable keys
are exactly the first occurrences of the section's mention walk sorted by
that index; and inserting (equivalently, deleting) a duplicate mention of
an already-seen ingredient name anywhere after its first occurrence leaves
every ingredient's output position unchanged. -/
theorem C3_first_occurrence_order :
    (∀ (r : Recipe) (sec : Section),
        aggregateSection r sec =
          List.insertionSort byIndex (aggregateMentions r (sectionMentions sec))) ∧
    (∀ (r : Recipe) (sec : Section),
        List.Sorted (· ≤ ·) ((aggregateSection r sec).map GroupedIngredient.index)) ∧
    (∀ (r : Recipe) (ms : List Nat),
        (List.insertionSort byIndex (aggregateMentions r ms)).map entryKey =
          List.insertionSort bySnd (firstOcc r [] ms)) ∧
    (∀ (r : Recipe) (pre post : List Nat) (i : Nat),
        (ingAt r i).name ∈ (pre.map fun j => (ingAt r j).name) →
        (List.insertionSort byIndex (aggregateMentions r (pre ++ i :: post))).map entryKey =
          (List.insertionSort byIndex (aggregateMentions r (pre ++ post))).map entryKey) := by
  have hchar : ∀ (r : Recipe) (ms : List Nat),
      (List.insertionSort byIndex (aggregateMentions r ms)).map entryKey =
        List.insertionSort bySnd (firstOcc r [] ms) := by
    intro r ms
    rw [insertionSort_map entryKey byIndex bySnd (fun a b => Iff.rfl)]
    have h := foldl_insertMention_entryKey r ms []
    simp only [List.map_nil, List.nil_append] at h
    rw [show aggregateMentions r ms = ms.foldl (fun es i => insertMention es r i) [] from rfl, h]
  have hdup : ∀ (r : Recipe) (i : Nat) (pre : List Nat) (seen : List String) (post : List Nat),
      ((ingAt r i).name ∈ seen ∨ (ingAt r i).name ∈ pre.map fun j => (ingAt r j).name) →
      firstOcc r seen (pre ++ i :: post) = firstOcc r seen (pre ++ post) := by
    intro r i
    intro pre
    induction pre with
    | nil =>
        intro seen post h
        rcases h with h | h
        · simp [firstOcc, h]
        · simp at h
    | cons j pre ih =>
        intro seen post h
        by_cases hj : (ingAt r j).name ∈ seen
        · have h' : (ingAt r i).name ∈ seen ∨
              (ingAt r i).name ∈ pre.map fun k => (ingAt r k).name := by
            rcases h with h | h
            · exact Or.inl h
            · rw [List.map_cons] at h
              rcases List.mem_cons.mp h with he | he
              · exact Or.inl (he ▸ hj)
              · exact Or.inr he
          simp [firstOcc, hj, ih seen post h']
        · have h' : (ingAt r i).name ∈ (ingAt r j).name :: seen ∨
              (ingAt r i).name ∈ pre.map fun k => (ingAt r k).name := by
            rcases h with h | h
            · exact Or.inl (List.mem_cons_of_mem _ h)
            · rw [List.map_cons] at h
              rcases List.mem_cons.mp h with he | he
              · exact Or.inl (he ▸ List.mem_cons_self _ _)
              · exact Or.inr he
          simp [firstOcc, hj, ih _ post h']
  refine ⟨fun r sec => rfl, fun r sec => ?_, hchar, fun r pre post i h => ?_⟩
  · have hmap := insertionSort_map GroupedIngredient.index byIndex
      (fun a b : Nat => a ≤ b) (fun a b => Iff.rfl)
      (aggregateMentions r (sectionMentions sec))
    show List.Sorted (· ≤ ·) ((List.insertionSort byIndex
      (aggregateMentions r (sectionMentions sec))).map GroupedIngredient.index)
    rw [hmap]
    exact List.sorted_insertionSort _ _
  · rw [hchar, hchar, hdup r i pre [] post (Or.inr h)]

/-- A recipe used to witness C3: the ingredient table mentions `salt`
(twice, at indices 0 and 2) and `pepper`. -/
def witRecipe : Recipe :=
  ⟨⟨some "t", some "d", some 1, none, none⟩, [],
    [⟨"salt", "salt", none, ⟨false, true⟩⟩, ⟨"pepper", "pepper", none, ⟨false, true⟩⟩,
     ⟨"salt", "salt", none, ⟨false, true⟩⟩], [], [], []⟩

/-- Witness for C3: inserting the duplicate `salt` mention (table index 2)
after the first `salt` mention does not move any ingredient in the
output. -/
theorem C3_first_occurrence_order_witness :
    (List.insertionSort byIndex (aggregateMentions witRecipe ([0] ++ 2 :: [1]))).map entryKey =
      (List.insertionSort byIndex (aggregateMentions witRecipe ([0] ++ [1]))).map entryKey :=
  C3_first_occurrence_order.2.2.2 witRecipe [0] [1] 2 (by decide)

/-! ## Section confinement of aggregation (C4) -/

/-- A two-section recipe whose table carries the same ingredient name three
times: twice mentioned in section A (values `v₁`, `v₂`, shared unit `u`),
once in section B (value `v₃`). -/
def twoSectionRecipe (name : String) (v₁ v₂ v₃ : ℚ) (u : Option String) : Recipe :=
  ⟨⟨some "t", some "d", some 2, none, none⟩,
   [⟨some "A", [.Step ⟨[.Ingredient 0, .Ingredient 1]⟩]⟩,
    ⟨some "B", [.Step ⟨[.Ingredient 2]⟩]⟩],
   [⟨name, name, some ⟨v₁, u⟩, ⟨false, true⟩⟩,
    ⟨name, name, some ⟨v₂, u⟩, ⟨false, true⟩⟩,
    ⟨name, name, some ⟨v₃, u⟩, ⟨false, true⟩⟩],
   [], [], []⟩

/-- C4: two compatible quantities of one ingredient name in one section
aggregate to a single entry with a single summed quantity bucket, while the
same name in the other section keeps its own entry whose quantity is never
merged across the section boundary; the rendered listing shows one
ingredient command per section, and on the spec's salt example both
sections list exactly `2 tsp salt` once. -/
theorem C4_section_confinement :
    (∀ (name : String) (v₁ v₂ v₃ : ℚ) (u : Option String),
        get_ingredients_by_section (twoSectionRecipe name v₁ v₂ v₃ u) =
          [(some "A", [⟨0, ⟨name, name, some ⟨v₁, u⟩, ⟨false, true⟩⟩, [⟨v₁ + v₂, u⟩]⟩]),
           (some "B", [⟨2, ⟨name, name, some ⟨v₃, u⟩, ⟨false, true⟩⟩, [⟨v₃, u⟩]⟩])]) ∧
    (∀ (name : String) (v₁ v₂ v₃ : ℚ) (u : Option String),
        ingredient_list (get_ingredients_by_section (twoSectionRecipe name v₁ v₂ v₃ u)) =
          ["\\ingredientsection\x7bA\x7d",
           "\\ingredient\x7b" ++
             sanitize_latex (format_quantity ⟨v₁ + v₂, u⟩ ++ " " ++ name) ++ "\x7d",
           "\\ingredientsection\x7bB\x7d",
           "\\ingredient\x7b" ++
             sanitize_latex (format_quantity ⟨v₃, u⟩ ++ " " ++ name) ++ "\x7d"]) ∧
    ingredient_list (get_ingredients_by_section (twoSectionRecipe "salt" 1 1 2 (some "tsp"))) =
      ["\\ingredientsection\x7bA\x7d", "\\ingredient\x7b2 tsp salt\x7d",
       "\\ingredientsection\x7bB\x7d", "\\ingredient\x7b2 tsp salt\x7d"] := by
  have hagg : ∀ (name : String) (v₁ v₂ v₃ : ℚ) (u : Option String),
      get_ingredients_by_section (twoSectionRecipe name v₁ v₂ v₃ u) =
        [(some "A", [⟨0, ⟨name, name, some ⟨v₁, u⟩, ⟨false, true⟩⟩, [⟨v₁ + v₂, u⟩]⟩]),
         (some "B", [⟨2, ⟨name, name, some ⟨v₃, u⟩, ⟨false, true⟩⟩, [⟨v₃, u⟩]⟩])] := by
    intro name v₁ v₂ v₃ u
    simp [get_ingredients_by_section, twoSectionRecipe, aggregateSection, aggregateMentions,
      sectionMentions, insertMention, findEntry, ingAt, GroupedQuantity.add,
      List.insertionSort, List.orderedInsert]
  have hlist : ∀ (name : String) (v₁ v₂ v₃ : ℚ) (u : Option String),
      ingredient_list (get_ingredients_by_section (twoSectionRecipe name v₁ v₂ v₃ u)) =
        ["\\ingredientsection\x7bA\x7d",
         "\\ingredient\x7b" ++
           sanitize_latex (format_quantity ⟨v₁ + v₂, u⟩ ++ " " ++ name) ++ "\x7d",
         "\\ingredientsection\x7bB\x7d",
         "\\ingredient\x7b" ++
           sanitize_latex (format_quantity ⟨v₃, u⟩ ++ " " ++ name) ++ "\x7d"] := by
    intro name v₁ v₂ v₃ u
    rw [hagg]
    have hA : sanitize_latex "A" = "A" := by decide
    have hB : sanitize_latex "B" = "B" := by decide
    simp [ingredient_list, renderGrouped, reduceJoin, add_simple_command, add_command,
      formatArg, Arg.required, String.join, hA, hB, String.intercalate, String.intercalate.go]
    exact ⟨rfl, rfl⟩
  refine ⟨hagg, hlist, ?_⟩
  rw [hlist "salt" 1 1 2 (some "tsp"), show (1 : ℚ) + 1 = 2 by norm_num]
  set_option maxRecDepth 20000 in decide

end CookLatex
